import Mathlib

/-!
Verification of the sabong live-wagering client (`src/frontend/src/App.jsx`)
and of the server behaviour it relies on.  The React client is shallowly
embedded: each handler becomes a pure function from its inputs (component
state, parsed form fields, decoded websocket payloads) to the action it takes
and the state it leaves behind.  JS `parseInt` results are `Option ℤ` (`none`
for `NaN`), JS number arithmetic on integers is read as exact arithmetic, and
server-side components that are not part of the repository (the settlement
engine, the credit account, the cash-request workflow) are modelled from the
specification, each such definition marked `Modelled from the spec:`.
-/

namespace Sabong

/-- Embeds `Math.floor(betAmount * (2 - rakePercentage / 100))` — the potential-win
figure shown on the MERON/WALA bet buttons in `App.jsx`, with the JS number
arithmetic read as exact rational arithmetic. -/
def potentialWin (betAmount rakePercentage : ℕ) : ℤ :=
  ⌊(betAmount : ℚ) * (2 - (rakePercentage : ℚ) / 100)⌋

/-- Modelled from the spec: the Settlement Engine (server-side code absent from
the repository) pays every bet on the winning side `stake × (2 − rake)`
truncated to an integer unit, where the configurable rake fraction is
`rakePercentage / 100` (e.g. 5 % ⇒ payout = stake × 1.95). -/
def settlementPayout (stake rakePercentage : ℕ) : ℤ :=
  ⌊(stake : ℚ) * (2 - (rakePercentage : ℚ) / 100)⌋

/-- C1: for every stake `s` and rake percentage `r ≤ 200`, the winning payout
equals `⌊s × (2 − r/100)⌋` — the very figure the client displays as the
potential win — and this floor equals the natural-number closed form
`s * (200 − r) / 100`; in particular (witness) with rake 5 % a stake of 1000
pays exactly 1950. -/
theorem settlementPayout_eq_floor (s r : ℕ) (hr : r ≤ 200) :
    settlementPayout s r = potentialWin s r ∧
    settlementPayout s r = ((s * (200 - r) / 100 : ℕ) : ℤ) := by
  constructor
  · rfl
  · unfold settlementPayout
    have h : (s : ℚ) * (2 - (r : ℚ) / 100) = ((s * (200 - r) : ℕ) : ℚ) / ((100 : ℕ) : ℚ) := by
      push_cast [Nat.cast_sub hr]
      ring
    rw [h, Rat.floor_natCast_div_natCast]
    exact (Int.natCast_div _ _).symm

/-- C1 witness: with rake 5 % a stake of 1000 pays exactly 1950. -/
theorem settlementPayout_witness :
    settlementPayout 1000 5 = 1950 := by
  have h := (settlementPayout_eq_floor 1000 5 (by norm_num)).2
  rw [h]
  norm_num

/-- Betting sides as used by the client (`'meron'` / `'wala'`). -/
inductive Side
  | meron
  | wala
deriving DecidableEq, Repr

/-- The slice of the `currentUser` state that the handlers read
(`{ id, username, role, credits }`). -/
structure ClientUser where
  id : ℕ
  username : String
  role : String
  credits : ℕ
deriving DecidableEq, Repr

/-- Embeds `const userRole = currentUser?.role || 'user'; const isAdmin = userRole === 'admin'`. -/
def isAdmin (currentUser : Option ClientUser) : Bool :=
  match currentUser with
  | some u => u.role == "admin"
  | none => false

/-- Embeds `const userCredit = currentUser?.credits || 0`. -/
def userCredit (currentUser : Option ClientUser) : ℕ :=
  match currentUser with
  | some u => u.credits
  | none => 0

/-- Embeds `const userName = currentUser?.username || ''`. -/
def userName (currentUser : Option ClientUser) : String :=
  match currentUser with
  | some u => u.username
  | none => ""

/-- The externally observable action taken by one call of `addBet(side)`. -/
inductive AddBetAction
  | showAuthModal
  | invalidAmountAlert
  | insufficientCreditsAlert
  | sendRequest (name : String) (amount : ℤ) (side : Side) (user_id : Option ℕ)
deriving DecidableEq, Repr

/-- Embeds `addBet(side)` from `App.jsx`: requires a logged-in user, parses the staged
bet amount (`none` stands for `NaN`), rejects an empty name or a non-positive
amount, and for a non-admin user refuses a stake above the cached credit
balance; only then does it issue the `/betting/add` request (with
`user_id: null` for admin manual entry). -/
def addBet (currentUser : Option ClientUser) (betAmount : Option ℤ)
    (betName : String) (side : Side) : AddBetAction :=
  match currentUser with
  | none => .showAuthModal
  | some u =>
    let admin := isAdmin (some u)
    let name := if admin then betName.trim else userName (some u)
    match betAmount with
    | none => .invalidAmountAlert
    | some amount =>
      if name = "" ∨ amount ≤ 0 then .invalidAmountAlert
      else if admin = false ∧ (userCredit (some u) : ℤ) < amount then .insufficientCreditsAlert
      else .sendRequest name amount side (if admin then none else some u.id)

/-- Embeds the gate `disabled={status !== 'open' && status !== 'lastcall'}` on the MERON/WALA
bet buttons: the buttons are enabled exactly in `open` and `lastcall`. -/
def betButtonsEnabled (status : String) : Bool :=
  status == "open" || status == "lastcall"

/-- A click on a bet button: the `onClick` handler (`addBet`) runs only while
the button is not disabled. -/
def betButtonClick (status : String) (currentUser : Option ClientUser)
    (betAmount : Option ℤ) (betName : String) (side : Side) : Option AddBetAction :=
  if betButtonsEnabled status then some (addBet currentUser betAmount betName side)
  else none

/-- A Bet Ledger row. -/
structure Bet where
  user_id : Option ℕ
  fight : ℕ
  side : Side
  stake : ℕ
deriving DecidableEq, Repr

/-- Error conditions of the modelled server components. -/
inductive ServerError
  | insufficientCredits (balance : ℕ)
  | invalidTransition
  | alreadyProcessed
  | validationError
deriving DecidableEq, Repr

/-- Modelled from the spec: the server-side `placeBet` of the Bet Ledger and
Credit Account (absent from the repository) is valid only while the fight phase
is `open` or `lastcall`, requires a positive integer stake, and for a
bettor-placed bet first atomically debits the stake; if the debit fails the bet
is not created and the caller receives `InsufficientCredits` carrying the
current balance.  It returns the resulting (balance, ledger) pair together with
the error, if any, so that "no partial effect" is expressible. -/
def placeBet (phase : String) (balance : ℕ) (ledger : List Bet)
    (uid fight : ℕ) (side : Side) (stake : ℕ) :
    (ℕ × List Bet) × Option ServerError :=
  if (phase == "open" || phase == "lastcall") = false then
    ((balance, ledger), some .invalidTransition)
  else if stake = 0 then ((balance, ledger), some .validationError)
  else if balance < stake then ((balance, ledger), some (.insufficientCredits balance))
  else ((balance - stake, ledger ++ [⟨some uid, fight, side, stake⟩]), none)

/-- C2: a bettor-placed bet whose stake exceeds the current credit balance
creates no bet: the client guard in `addBet` refuses to issue the placement
request at all, and the modelled server debit rejects the placement with
`InsufficientCredits` carrying the current balance, leaving balance and ledger
untouched (no partial effect). -/
theorem bettor_insufficient_credits_no_bet
    (u : ClientUser) (amount : ℤ) (betName : String) (side : Side)
    (phase : String) (balance : ℕ) (ledger : List Bet) (uid fight stake : ℕ)
    (hadmin : isAdmin (some u) = false) (hname : u.username ≠ "")
    (hover : (userCredit (some u) : ℤ) < amount)
    (hphase : (phase == "open" || phase == "lastcall") = true)
    (hpos : stake ≠ 0) (hbal : balance < stake) :
    addBet (some u) (some amount) betName side = .insufficientCreditsAlert ∧
    placeBet phase balance ledger uid fight side stake =
      ((balance, ledger), some (.insufficientCredits balance)) := by
  constructor
  · have h0 : ¬ amount ≤ 0 :=
      not_le.mpr (lt_of_le_of_lt (Int.natCast_nonneg _) hover)
    have hover' : (u.credits : ℤ) < amount := by simpa [userCredit] using hover
    simp [addBet, userName, userCredit, hadmin, hname, h0, hover']
  · simp [placeBet, hphase, hpos, hbal]

/-- C2 witness: a bettor with 100 credits staking 200 triggers the client
guard, and the modelled server rejects the same placement with the current
balance and no state change. -/
theorem bettor_insufficient_credits_no_bet_witness :
    addBet (some ⟨1, "alice", "user", 100⟩) (some 200) "" Side.meron =
      AddBetAction.insufficientCreditsAlert ∧
    placeBet "open" 100 [] 1 7 Side.meron 200 =
      ((100, []), some (ServerError.insufficientCredits 100)) :=
  bettor_insufficient_credits_no_bet ⟨1, "alice", "user", 100⟩ 200 "" Side.meron
    "open" 100 [] 1 7 200 (by decide) (by decide) (by decide) (by decide)
    (by decide) (by decide)

/-- C3: bet placement is possible only while the betting status is `open` or
`lastcall` — in any other status the bet buttons are disabled and a click
creates nothing — and a placement request is issued only with a positive
integer stake. -/
theorem bet_request_only_when_bettable
    (status : String) (currentUser : Option ClientUser) (betAmount : Option ℤ)
    (betName nm : String) (side : Side) (a : ℤ) (uid : Option ℕ) :
    (betButtonsEnabled status = false →
      betButtonClick status currentUser betAmount betName side = none) ∧
    (betButtonClick status currentUser betAmount betName side =
        some (.sendRequest nm a side uid) →
      (status = "open" ∨ status = "lastcall") ∧ 0 < a ∧ betAmount = some a) := by
  constructor
  · intro h
    simp [betButtonClick, h]
  · intro h
    have he : betButtonsEnabled status = true := by
      cases hbe : betButtonsEnabled status with
      | false =>
        rw [betButtonClick, hbe] at h
        simp at h
      | true => rfl
    have hs : status = "open" ∨ status = "lastcall" := by
      simpa [betButtonsEnabled] using he
    refine ⟨hs, ?_⟩
    rw [betButtonClick, he] at h
    simp only [if_true, Option.some.injEq] at h
    cases currentUser with
    | none => simp [addBet] at h
    | some u =>
      cases betAmount with
      | none => simp [addBet] at h
      | some amount =>
        cases hadm : isAdmin (some u) with
        | true =>
          simp only [addBet, hadm] at h
          simp at h
          split_ifs at h with h1
          simp only [AddBetAction.sendRequest.injEq] at h
          obtain ⟨-, ha, -, -⟩ := h
          push_neg at h1
          exact ⟨ha ▸ h1.2, by rw [ha]⟩
        | false =>
          simp only [addBet, hadm] at h
          simp at h
          split_ifs at h with h1 h2
          simp only [AddBetAction.sendRequest.injEq] at h
          obtain ⟨-, ha, -, -⟩ := h
          push_neg at h1
          exact ⟨ha ▸ h1.2, by rw [ha]⟩

/-- C3 witness: in status `open` a logged-in bettor's click issues a request
with the positive stake 50. -/
theorem bet_request_only_when_bettable_witness :
    ((("open" : String) = "open" ∨ ("open" : String) = "lastcall") ∧
      (0 : ℤ) < 50 ∧ (some 50 : Option ℤ) = some 50) :=
  (bet_request_only_when_bettable "open" (some ⟨1, "alice", "user", 100⟩)
    (some 50) "" "alice" Side.meron 50 (some 1)).2 (by decide)

/-- Embeds `approveCashIn(requestId)` from `App.jsx`: `if (processingCashIn) return`
guards against double-clicks; otherwise the processing marker is set and one
`/cashin/approve` request is issued.  Returns the new `processingCashIn`
marker and the approval request issued, if any. -/
def approveCashIn (processingCashIn : Option ℕ) (requestId : ℕ) :
    Option ℕ × Option ℕ :=
  match processingCashIn with
  | some r => (some r, none)
  | none => (some requestId, some requestId)

/-- Status of a cash request. -/
inductive CashStatus
  | pending
  | approved
  | rejected
deriving DecidableEq, Repr

/-- A deposit/withdrawal request record. -/
structure CashRequest where
  id : ℕ
  user_id : ℕ
  amount : ℕ
  status : CashStatus
  reference_code : ℕ
deriving DecidableEq, Repr

/-- Modelled from the spec: the server-side `approveDeposit` (absent from the
repository) fails with `AlreadyProcessed` when the request is not `pending`,
with no balance change; otherwise it credits the amount to the user and marks
the request `approved`. -/
def approveDeposit (req : CashRequest) (balance : ℕ) :
    (CashRequest × ℕ) × Option ServerError :=
  if req.status = .pending then
    (({ req with status := .approved }, balance + req.amount), none)
  else ((req, balance), some .alreadyProcessed)

/-- C4: duplicate approval attempts are safe.  While `processingCashIn` is set
the client issues no second approval request, and on the modelled server the
first `approveDeposit` of a `pending` request credits the amount once, while a
second call on the now-approved request returns `AlreadyProcessed` and changes
neither the request nor the balance — the user is credited exactly once. -/
theorem approve_twice_credits_once
    (r requestId : ℕ) (req : CashRequest) (balance : ℕ)
    (hpend : req.status = .pending) :
    approveCashIn (some r) requestId = (some r, none) ∧
    (approveDeposit req balance).1.2 = balance + req.amount ∧
    (approveDeposit req balance).2 = none ∧
    approveDeposit (approveDeposit req balance).1.1 (approveDeposit req balance).1.2 =
      (((approveDeposit req balance).1.1, balance + req.amount),
        some .alreadyProcessed) := by
  refine ⟨rfl, ?_, ?_, ?_⟩ <;> simp [approveDeposit, approveCashIn, hpend]

/-- C4 witness: 500-credit deposit request 1 approved once on balance 100 gives
600; the second call is `AlreadyProcessed` with no further credit. -/
theorem approve_twice_credits_once_witness :
    approveCashIn (some 9) 9 = (some 9, none) ∧
    (approveDeposit ⟨1, 2, 500, CashStatus.pending, 11⟩ 100).1.2 = 100 + 500 ∧
    (approveDeposit ⟨1, 2, 500, CashStatus.pending, 11⟩ 100).2 = none ∧
    approveDeposit (approveDeposit ⟨1, 2, 500, CashStatus.pending, 11⟩ 100).1.1
        (approveDeposit ⟨1, 2, 500, CashStatus.pending, 11⟩ 100).1.2 =
      (((approveDeposit ⟨1, 2, 500, CashStatus.pending, 11⟩ 100).1.1, 100 + 500),
        some ServerError.alreadyProcessed) :=
  approve_twice_credits_once 9 9 ⟨1, 2, 500, CashStatus.pending, 11⟩ 100 rfl

/-- The action taken by `submitCashInRequest`. -/
inductive CashInAction
  | validationAlert
  | sendRequest (amount : ℤ)
deriving DecidableEq, Repr

/-- Embeds `submitCashInRequest` from `App.jsx`: `parseInt` the typed amount (`none`
stands for `NaN`); `if (!amount || amount < 100 || amount > 50000)` shows a
validation alert and issues nothing, otherwise the `/cashin/request` call is
made. -/
def submitCashInRequest (cashInAmount : Option ℤ) : CashInAction :=
  match cashInAmount with
  | none => .validationAlert
  | some a =>
    if a = 0 ∨ a < 100 ∨ 50000 < a then .validationAlert
    else .sendRequest a

/-- The action taken by `submitCashOutRequest`. -/
inductive CashOutAction
  | validationAlert
  | insufficientCreditsAlert (balance : ℕ)
  | sendRequest (amount : ℤ) (gcashNumber gcashName : String)
deriving DecidableEq, Repr

/-- Embeds `submitCashOutRequest` from `App.jsx`: amount bounds check as for cash-in,
then destination-detail validation (GCash number of length ≥ 10 and account
name of length ≥ 2), then a balance check against the freshly fetched
`actualCredits`; only then is the `/cashout/request` call made. -/
def submitCashOutRequest (cashOutAmount : Option ℤ)
    (gcashNumber gcashName : String) (actualCredits : ℕ) : CashOutAction :=
  match cashOutAmount with
  | none => .validationAlert
  | some a =>
    if a = 0 ∨ a < 100 ∨ 50000 < a then .validationAlert
    else if gcashNumber = "" ∨ gcashNumber.length < 10 then .validationAlert
    else if gcashName = "" ∨ gcashName.length < 2 then .validationAlert
    else if (actualCredits : ℤ) < a then .insufficientCreditsAlert actualCredits
    else .sendRequest a gcashNumber gcashName

/-- State of the modelled Cash Request Workflow: the requests created so far
plus counters supplying fresh ids and reference codes. -/
structure CashWorkflowState where
  requests : List CashRequest
  nextId : ℕ
  nextRef : ℕ
deriving DecidableEq, Repr

/-- Modelled from the spec: the server-side `requestDeposit(userId, amount)`
(absent from the repository) creates a `pending` CashRequest with a fresh
unique reference code and moves no credits. -/
def requestDeposit (st : CashWorkflowState) (uid amount : ℕ) :
    CashWorkflowState × CashRequest :=
  let req : CashRequest := ⟨st.nextId, uid, amount, .pending, st.nextRef⟩
  (⟨st.requests ++ [req], st.nextId + 1, st.nextRef + 1⟩, req)

/-- C5: a deposit or withdrawal whose amount is out of the 100–50000 bounds
(or is not a number) is rejected with a validation alert and no request is
issued; an in-bounds deposit amount proceeds, and the modelled server then
creates a `pending` CashRequest whose reference code is fresh (distinct from
every existing one). -/
theorem cash_request_amount_bounds
    (aIn aOut aOk : ℤ) (num name : String) (credits : ℕ)
    (st : CashWorkflowState) (uid amt : ℕ)
    (hIn : aIn < 100 ∨ 50000 < aIn) (hOut : aOut < 100 ∨ 50000 < aOut)
    (hOk1 : 100 ≤ aOk) (hOk2 : aOk ≤ 50000)
    (hfresh : ∀ r ∈ st.requests, r.reference_code < st.nextRef) :
    submitCashInRequest none = .validationAlert ∧
    submitCashInRequest (some aIn) = .validationAlert ∧
    submitCashOutRequest none num name credits = .validationAlert ∧
    submitCashOutRequest (some aOut) num name credits = .validationAlert ∧
    submitCashInRequest (some aOk) = .sendRequest aOk ∧
    (requestDeposit st uid amt).2.status = .pending ∧
    (requestDeposit st uid amt).2.reference_code ∉
      st.requests.map CashRequest.reference_code := by
  refine ⟨rfl, ?_, rfl, ?_, ?_, rfl, ?_⟩
  · simp only [submitCashInRequest]
    rw [if_pos (Or.inr hIn)]
  · simp only [submitCashOutRequest]
    rw [if_pos (Or.inr hOut)]
  · simp only [submitCashInRequest]
    rw [if_neg (by omega)]
  · intro hmem
    simp only [requestDeposit, List.mem_map] at hmem
    obtain ⟨r, hr, hEq⟩ := hmem
    exact absurd hEq (ne_of_lt (hfresh r hr))

/-- C5 witness: 50 is rejected for both directions, 1000 proceeds, and the
request created on an empty workflow is pending with a fresh reference code. -/
theorem cash_request_amount_bounds_witness :
    submitCashInRequest none = .validationAlert ∧
    submitCashInRequest (some 50) = .validationAlert ∧
    submitCashOutRequest none "09171234567" "Juan" 1000 = .validationAlert ∧
    submitCashOutRequest (some 60000) "09171234567" "Juan" 1000 = .validationAlert ∧
    submitCashInRequest (some 1000) = .sendRequest 1000 ∧
    (requestDeposit ⟨[], 0, 0⟩ 1 1000).2.status = .pending ∧
    (requestDeposit ⟨[], 0, 0⟩ 1 1000).2.reference_code ∉
      ([] : List CashRequest).map CashRequest.reference_code :=
  cash_request_amount_bounds 50 60000 1000 "09171234567" "Juan" 1000
    ⟨[], 0, 0⟩ 1 1000 (by norm_num) (by norm_num) (by norm_num) (by norm_num)
    (by simp)

/-- One entry of the `payouts` array carried by a `winner_declared` message. -/
structure Payout where
  user_id : ℕ
  new_credits : Option ℕ
  payout : Option ℕ
  refund : Option ℕ
deriving DecidableEq, Repr

/-- Stored credits after the `winner_declared` handler of the current client
(`App.jsx`): it updates only when the payload has a payout entry for the
current user whose `new_credits` is defined (`myPayout.new_credits !==
undefined`), and then stores exactly that value. -/
def winnerCreditsCurrent (user : ClientUser) (payouts : Option (List Payout)) :
    Option ℕ :=
  match payouts with
  | none => some user.credits
  | some ps =>
    match ps.find? (fun p => p.user_id == user.id) with
    | none => some user.credits
    | some myPayout =>
      match myPayout.new_credits with
      | some n => some n
      | none => some user.credits

/-- Stored credits after the `winner_declared` handler of the prior client
version (`src/unnamed/part_001`), once its `setTimeout(…, delay*1000)`
callback has run: whenever a payout entry for the user exists it stores
`myPayout.new_credits` unconditionally (`none` stands for a stored JS
`undefined`). -/
def winnerCreditsDelayed (user : ClientUser) (payouts : Option (List Payout)) :
    Option ℕ :=
  match payouts with
  | none => some user.credits
  | some ps =>
    match ps.find? (fun p => p.user_id == user.id) with
    | none => some user.credits
    | some myPayout => myPayout.new_credits

/-- C6: the immediate handler and the delayed prior-version handler are
equivalent up to presentation: when the `winner_declared` payload carries a
payout entry for the current user with a server-supplied `new_credits`, both
leave the stored credits equal to exactly that value. -/
theorem winner_declared_handlers_equivalent
    (user : ClientUser) (ps : List Payout) (p : Payout) (n : ℕ)
    (hfind : ps.find? (fun q => q.user_id == user.id) = some p)
    (hn : p.new_credits = some n) :
    winnerCreditsCurrent user (some ps) = some n ∧
    winnerCreditsDelayed user (some ps) = some n := by
  constructor <;> simp [winnerCreditsCurrent, winnerCreditsDelayed, hfind, hn]

/-- C6 witness: a payout list crediting user 1 with 1950 yields stored credits
1950 under both handler versions. -/
theorem winner_declared_handlers_equivalent_witness :
    winnerCreditsCurrent ⟨1, "alice", "user", 100⟩
        (some [⟨1, some 1950, some 1950, none⟩]) = some 1950 ∧
    winnerCreditsDelayed ⟨1, "alice", "user", 100⟩
        (some [⟨1, some 1950, some 1950, none⟩]) = some 1950 :=
  winner_declared_handlers_equivalent ⟨1, "alice", "user", 100⟩
    [⟨1, some 1950, some 1950, none⟩] ⟨1, some 1950, some 1950, none⟩ 1950
    (by decide) rfl

/-- The server messages and responses that can carry a credit balance, with
the fields each `App.jsx` handler reads (`handleWSMessage` cases, the
`addBet` success response, and the cash-out request success response). -/
inductive ServerMessage
  | winnerDeclared (payouts : Option (List Payout))
  | cashinApproved (user_id amount new_credits : ℕ)
  | cashoutApproved (user_id amount : ℕ)
  | cashoutRejected (user_id amount new_credits : ℕ)
  | creditUpdate (user_id : ℕ) (credits : Option ℕ)
  | betPlacedResponse (new_credits : Option ℕ)
  | cashoutRequestResponse (new_credits : ℕ)
deriving DecidableEq, Repr

/-- The stored credits of `currentUser` after the client processes one
message, exactly as each `App.jsx` case implements it. -/
def creditsAfterMessage (user : ClientUser) (m : ServerMessage) : ℕ :=
  match m with
  | .winnerDeclared payouts =>
    match winnerCreditsCurrent user payouts with
    | some n => n
    | none => user.credits
  | .cashinApproved uid _ n => if uid == user.id then n else user.credits
  | .cashoutApproved _ _ => user.credits
  | .cashoutRejected uid _ n => if uid == user.id then n else user.credits
  | .creditUpdate uid c =>
    if uid == user.id then
      match c with
      | some n => n
      | none => user.credits
    else user.credits
  | .betPlacedResponse c =>
    match c with
    | some n => n
    | none => user.credits
  | .cashoutRequestResponse n => n

/-- The balance a message carries for the given user, if any: the
`new_credits`/`credits` field addressed to that user's id. -/
def carriedBalance (user : ClientUser) (m : ServerMessage) : Option ℕ :=
  match m with
  | .winnerDeclared none => none
  | .winnerDeclared (some ps) =>
    (ps.find? (fun p => p.user_id == user.id)).bind Payout.new_credits
  | .cashinApproved uid _ n => if uid == user.id then some n else none
  | .cashoutApproved _ _ => none
  | .cashoutRejected uid _ n => if uid == user.id then some n else none
  | .creditUpdate uid c => if uid == user.id then c else none
  | .betPlacedResponse c => c
  | .cashoutRequestResponse n => some n

/-- C8: the displayed balance is a cache of the last server-supplied value:
whenever a message carries a balance `n` for the current user, the handler
stores exactly `n` — independently of the previously stored credits, so the
client never derives the balance by its own arithmetic. -/
theorem stored_credits_are_server_values
    (user : ClientUser) (m : ServerMessage) (n : ℕ)
    (h : carriedBalance user m = some n) :
    creditsAfterMessage user m = n := by
  cases m with
  | winnerDeclared payouts =>
    cases payouts with
    | none => simp [carriedBalance] at h
    | some ps =>
      simp only [carriedBalance] at h
      cases hfind : ps.find? (fun p => p.user_id == user.id) with
      | none =>
        rw [hfind] at h
        simp at h
      | some p =>
        rw [hfind] at h
        simp only [Option.some_bind] at h
        simp [creditsAfterMessage, winnerCreditsCurrent, hfind, h]
  | cashinApproved uid amt nc =>
    simp only [creditsAfterMessage, carriedBalance] at h ⊢
    split_ifs at h ⊢ with hc
    simpa using h
  | cashoutApproved uid amt =>
    simp [carriedBalance] at h
  | cashoutRejected uid amt nc =>
    simp only [creditsAfterMessage, carriedBalance] at h ⊢
    split_ifs at h ⊢ with hc
    simpa using h
  | creditUpdate uid c =>
    simp only [creditsAfterMessage, carriedBalance] at h ⊢
    split_ifs at h ⊢ with hc
    rw [h]
  | betPlacedResponse c =>
    simp only [creditsAfterMessage, carriedBalance] at h ⊢
    rw [h]
  | cashoutRequestResponse nc =>
    simpa [creditsAfterMessage, carriedBalance] using h

/-- C8 witness: a `credit_update` for user 1 with credits 777 makes the client
store exactly 777. -/
theorem stored_credits_are_server_values_witness :
    creditsAfterMessage ⟨1, "alice", "user", 100⟩
      (ServerMessage.creditUpdate 1 (some 777)) = 777 :=
  stored_credits_are_server_values ⟨1, "alice", "user", 100⟩
    (ServerMessage.creditUpdate 1 (some 777)) 777 (by decide)

/-- Client-side interval bookkeeping for the lastcall countdown: the ids of
the currently scheduled intervals, a fresh-id counter, and the interval id
stored in `countdownRef.current`. -/
structure TimerState where
  active : List ℕ
  nextId : ℕ
  countdownRef : Option ℕ
deriving DecidableEq, Repr

/-- Embeds `clearInterval(countdownRef.current)`: deactivates the referenced
interval (a no-op on a null reference, as in JS). -/
def clearCountdownRef (s : TimerState) : TimerState :=
  match s.countdownRef with
  | none => s
  | some i => { s with active := s.active.erase i }

/-- Embeds `startCountdown(seconds)` from `App.jsx`: it always clears the previously
scheduled interval first, then schedules a fresh interval and stores its id in
`countdownRef.current`. -/
def startCountdown (s : TimerState) : TimerState :=
  let s1 := clearCountdownRef s
  { active := s1.active ++ [s1.nextId],
    nextId := s1.nextId + 1,
    countdownRef := some s1.nextId }

/-- The scheduled interval clearing itself when the countdown runs out
(`if (prev <= 1) clearInterval(countdownRef.current)`). -/
def countdownExpire (s : TimerState) : TimerState :=
  clearCountdownRef s

/-- Timer-relevant client events: a `betting_status: lastcall` message (the
one caller of `startCountdown`) and the countdown running out. -/
inductive TimerEvent
  | lastcallMessage
  | expire
deriving DecidableEq, Repr

/-- One client timer step. -/
def timerStep (s : TimerState) : TimerEvent → TimerState
  | .lastcallMessage => startCountdown s
  | .expire => countdownExpire s

/-- Initial client timer state: nothing scheduled, `countdownRef` null. -/
def initialTimerState : TimerState := ⟨[], 0, none⟩

/-- The single-timer invariant: either no interval is active, or exactly the
one referenced by `countdownRef` is. -/
def timerInv (s : TimerState) : Prop :=
  s.active = [] ∨ ∃ i, s.active = [i] ∧ s.countdownRef = some i

theorem timerInv_step (s : TimerState) (hs : timerInv s) (e : TimerEvent) :
    timerInv (timerStep s e) := by
  cases e with
  | lastcallMessage =>
    rcases hs with h | ⟨i, hact, href⟩
    · right
      refine ⟨(clearCountdownRef s).nextId, ?_, rfl⟩
      simp only [timerStep, startCountdown]
      have : (clearCountdownRef s).active = [] := by
        unfold clearCountdownRef
        cases s.countdownRef <;> simp [h]
      rw [this]
      rfl
    · right
      refine ⟨(clearCountdownRef s).nextId, ?_, rfl⟩
      simp only [timerStep, startCountdown]
      have : (clearCountdownRef s).active = [] := by
        unfold clearCountdownRef
        rw [href]
        simp [hact]
      rw [this]
      rfl
  | expire =>
    rcases hs with h | ⟨i, hact, href⟩
    · left
      simp only [timerStep, countdownExpire]
      unfold clearCountdownRef
      cases s.countdownRef <;> simp [h]
    · left
      simp only [timerStep, countdownExpire]
      unfold clearCountdownRef
      rw [href]
      simp [hact]

theorem timerInv_foldl (evs : List TimerEvent) (s : TimerState)
    (hs : timerInv s) : timerInv (evs.foldl timerStep s) := by
  induction evs generalizing s with
  | nil => exact hs
  | cons e evs ih => exact ih _ (timerInv_step s hs e)

/-- Modelled from the spec: the server-side fight machine (absent from the
repository), for which the lastcall countdown is a single cancellable
scheduled callback — `close_betting` cancels the pending timer, and a fired
timer that is no longer the pending one does nothing. -/
structure FightMachine where
  phase : String
  pendingTimer : Option ℕ
  nextTimer : ℕ
  events : List String
deriving DecidableEq, Repr

/-- Modelled from the spec: `last_call(seconds)` schedules the auto-close
callback and records it as the single pending timer. -/
def lastCall (m : FightMachine) : FightMachine :=
  { phase := "lastcall",
    pendingTimer := some m.nextTimer,
    nextTimer := m.nextTimer + 1,
    events := m.events ++ ["phase_changed:lastcall"] }

/-- Modelled from the spec: a manual `close_betting()` cancels the pending
auto-close timer. -/
def closeBetting (m : FightMachine) : FightMachine :=
  { m with
    phase := "closed",
    pendingTimer := none,
    events := m.events ++ ["phase_changed:closed"] }

/-- Modelled from the spec: the auto-close callback fires only if it is still
the pending timer; otherwise it is a no-op. -/
def timerFire (m : FightMachine) (id : ℕ) : FightMachine :=
  if m.pendingTimer = some id then
    { m with
      phase := "closed",
      pendingTimer := none,
      events := m.events ++ ["phase_changed:closed"] }
  else m

/-- C7: the lastcall countdown is a single scheduled callback.  On the client,
after any sequence of `lastcall` messages and expiries at most one countdown
interval is active (each `startCountdown` cancels the previous interval
first); on the modelled server, once `close_betting` is issued before expiry
the cancelled auto-close timer firing changes nothing — no duplicate
`phase_changed` event. -/
theorem countdown_single_timer (evs : List TimerEvent) (m : FightMachine) (id : ℕ) :
    (evs.foldl timerStep initialTimerState).active.length ≤ 1 ∧
    timerFire (closeBetting (lastCall m)) id = closeBetting (lastCall m) := by
  constructor
  · have h := timerInv_foldl evs initialTimerState (Or.inl rfl)
    rcases h with h | ⟨i, hact, -⟩
    · rw [h]
      simp
    · rw [hact]
      simp
  · unfold timerFire closeBetting lastCall
    simp

/-- The chip-selector state: the chip stack plus the `betAmount` text field
(`none` = empty string). -/
structure ChipState where
  chipStack : List ℕ
  betAmount : Option ℕ
deriving DecidableEq, Repr

/-- Embeds `const currentBetTotal = chipStack.reduce((sum, chip) => sum + chip, 0)`. -/
def currentBetTotal (s : ChipState) : ℕ :=
  s.chipStack.foldl (· + ·) 0

/-- The displayed bet amount (`betAmount ? parseInt(betAmount) : '₱0'`). -/
def displayedBetAmount (s : ChipState) : ℕ :=
  s.betAmount.getD 0

/-- The user-driven chip operations: `addChip(amount)`, `undoChip()`,
`clearChips()` and the `+All` button. -/
inductive ChipOp
  | add (amount : ℕ)
  | undo
  | clear
  | allIn
deriving DecidableEq, Repr

/-- One chip operation as `App.jsx` implements it: `addChip` refuses a chip
that would take a logged-in non-admin user's total above the cached balance;
`undoChip` pops a chip; `clearChips` empties the stack; the `+All` button is
rendered only for a logged-in non-admin user with remaining balance ≥ 10 and
pushes one chip worth the whole remaining balance, setting the field to
`String(userCredit)`. -/
def chipStep (admin loggedIn : Bool) (credit : ℕ) (s : ChipState) :
    ChipOp → ChipState
  | .add amount =>
    if admin = false ∧ loggedIn = true ∧ credit < currentBetTotal s + amount then s
    else
      let newStack := s.chipStack ++ [amount]
      ⟨newStack, some (newStack.foldl (· + ·) 0)⟩
  | .undo =>
    if s.chipStack = [] then s
    else
      let newStack := s.chipStack.dropLast
      ⟨newStack, if newStack = [] then none else some (newStack.foldl (· + ·) 0)⟩
  | .clear => ⟨[], none⟩
  | .allIn =>
    if admin = false ∧ loggedIn = true ∧ 10 ≤ credit - currentBetTotal s then
      ⟨s.chipStack ++ [credit - currentBetTotal s], some credit⟩
    else s

theorem foldl_add_eq_sum (l : List ℕ) (n : ℕ) :
    l.foldl (· + ·) n = n + l.sum := by
  induction l generalizing n with
  | nil => simp
  | cons x xs ih =>
    simp only [List.foldl_cons, List.sum_cons, ih]
    omega

theorem sum_dropLast_le (l : List ℕ) : l.dropLast.sum ≤ l.sum := by
  induction l using List.reverseRecOn with
  | nil => simp
  | append_singleton xs x _ => simp

/-- The chip-stack invariant: the `betAmount` field always holds the current
stack sum (empty field for an empty stack), and for a logged-in non-admin
user the total never exceeds the cached credit balance. -/
def chipInv (admin loggedIn : Bool) (credit : ℕ) (s : ChipState) : Prop :=
  s.betAmount = (if s.chipStack = [] then none else some (currentBetTotal s)) ∧
  (admin = false → loggedIn = true → currentBetTotal s ≤ credit)

theorem chipInv_step (admin loggedIn : Bool) (credit : ℕ) (s : ChipState)
    (hs : chipInv admin loggedIn credit s) (op : ChipOp) :
    chipInv admin loggedIn credit (chipStep admin loggedIn credit s op) := by
  obtain ⟨hdisp, hbound⟩ := hs
  cases op with
  | add amount =>
    simp only [chipStep]
    split_ifs with hguard
    · exact ⟨hdisp, hbound⟩
    · constructor
      · simp [currentBetTotal]
      · intro ha hl
        simp only [currentBetTotal, foldl_add_eq_sum, List.sum_append] at *
        have := hbound ha hl
        rcases Decidable.em (credit < s.chipStack.sum + amount) with hlt | hge
        · exact absurd ⟨ha, hl, by simpa [foldl_add_eq_sum] using hlt⟩ hguard
        · simpa using hge
  | undo =>
    have hbnd : admin = false → loggedIn = true →
        s.chipStack.dropLast.foldl (· + ·) 0 ≤ credit := by
      intro ha hl
      have h1 := hbound ha hl
      simp only [currentBetTotal, foldl_add_eq_sum, Nat.zero_add] at h1 ⊢
      exact le_trans (sum_dropLast_le _) h1
    simp only [chipStep]
    split_ifs with hempty h2
    · exact ⟨hdisp, hbound⟩
    · exact ⟨by simp [h2], hbnd⟩
    · exact ⟨by simp [currentBetTotal, h2], hbnd⟩
  | clear =>
    exact ⟨rfl, fun _ _ => by simp [currentBetTotal, chipStep]⟩
  | allIn =>
    simp only [chipStep]
    split_ifs with hguard
    · obtain ⟨ha, hl, hrem⟩ := hguard
      have htot : currentBetTotal s ≤ credit := hbound ha hl
      constructor
      · simp only [currentBetTotal, foldl_add_eq_sum, List.sum_append] at htot ⊢
        simp only [List.sum_cons, List.sum_nil]
        rw [if_neg (by simp)]
        congr 1
        omega
      · intro _ _
        simp only [currentBetTotal, foldl_add_eq_sum, List.sum_append] at htot ⊢
        simp only [List.sum_cons, List.sum_nil]
        omega
    · exact ⟨hdisp, hbound⟩

theorem chipInv_foldl (admin loggedIn : Bool) (credit : ℕ) (ops : List ChipOp)
    (s : ChipState) (hs : chipInv admin loggedIn credit s) :
    chipInv admin loggedIn credit (ops.foldl (chipStep admin loggedIn credit) s) := by
  induction ops generalizing s with
  | nil => exact hs
  | cons op ops ih => exact ih _ (chipInv_step _ _ _ _ hs op)

/-- C9: after every sequence of chip operations starting from the empty
selector, the displayed bet amount equals the chip-stack total, and for a
logged-in non-admin user that total never exceeds the cached credit balance
(a chip that would exceed it is simply not added). -/
theorem chip_total_invariant (admin loggedIn : Bool) (credit : ℕ)
    (ops : List ChipOp) :
    displayedBetAmount (ops.foldl (chipStep admin loggedIn credit) ⟨[], none⟩) =
      currentBetTotal (ops.foldl (chipStep admin loggedIn credit) ⟨[], none⟩) ∧
    (admin = false → loggedIn = true →
      currentBetTotal (ops.foldl (chipStep admin loggedIn credit) ⟨[], none⟩) ≤ credit) := by
  have hinv : chipInv admin loggedIn credit
      (ops.foldl (chipStep admin loggedIn credit) ⟨[], none⟩) :=
    chipInv_foldl admin loggedIn credit ops ⟨[], none⟩
      ⟨rfl, fun _ _ => by simp [currentBetTotal]⟩
  obtain ⟨hdisp, hbound⟩ := hinv
  refine ⟨?_, hbound⟩
  rw [displayedBetAmount, hdisp]
  split_ifs with h
  · simp [currentBetTotal, h]
  · rfl

/-- C9 witness: the sequence add 10, add 50, undo, all-in for a logged-in
non-admin user with 100 credits displays exactly the stack total, which does
not exceed 100. -/
theorem chip_total_invariant_witness :
    displayedBetAmount (([ChipOp.add 10, ChipOp.add 50, ChipOp.undo,
        ChipOp.allIn]).foldl (chipStep false true 100) ⟨[], none⟩) =
      currentBetTotal (([ChipOp.add 10, ChipOp.add 50, ChipOp.undo,
        ChipOp.allIn]).foldl (chipStep false true 100) ⟨[], none⟩) ∧
    currentBetTotal (([ChipOp.add 10, ChipOp.add 50, ChipOp.undo,
        ChipOp.allIn]).foldl (chipStep false true 100) ⟨[], none⟩) ≤ 100 :=
  ⟨(chip_total_invariant false true 100 _).1,
    (chip_total_invariant false true 100 _).2 rfl rfl⟩

/-- The externally observable action of one `handleRegister()` call. -/
inductive RegisterAction
  | errorMessage (msg : String)
  | sendRequest (username password : String)
deriving DecidableEq, Repr

/-- Embeds `handleRegister` from `App.jsx`: a blank (whitespace-only) username or
password, a username shorter than 3 characters, or a password shorter than 4
characters only set an error message and return; otherwise the single
`/auth/register` request is issued. -/
def handleRegister (authUsername authPassword : String) : RegisterAction :=
  if authUsername.trim = "" ∨ authPassword.trim = "" then
    .errorMessage "Please enter username and password"
  else if authUsername.length < 3 then
    .errorMessage "Username must be at least 3 characters"
  else if authPassword.length < 4 then
    .errorMessage "Password must be at least 4 characters"
  else .sendRequest authUsername authPassword

/-- C10: registration issues no request unless the username has at least 3
characters, the password at least 4, and neither is blank; every violating
input only sets an error message. -/
theorem register_preconditions (u p : String) :
    (handleRegister u p = .sendRequest u p →
      u.trim ≠ "" ∧ p.trim ≠ "" ∧ 3 ≤ u.length ∧ 4 ≤ p.length) ∧
    ((u.trim = "" ∨ p.trim = "" ∨ u.length < 3 ∨ p.length < 4) →
      ∃ msg, handleRegister u p = .errorMessage msg) := by
  constructor
  · intro h
    unfold handleRegister at h
    split_ifs at h with h1 h2 h3
    push_neg at h1
    exact ⟨h1.1, h1.2, by omega, by omega⟩
  · intro h
    unfold handleRegister
    by_cases h1 : u.trim = "" ∨ p.trim = ""
    · exact ⟨_, by rw [if_pos h1]⟩
    · by_cases h2 : u.length < 3
      · exact ⟨_, by rw [if_neg h1, if_pos h2]⟩
      · by_cases h3 : p.length < 4
        · exact ⟨_, by rw [if_neg h1, if_neg h2, if_pos h3]⟩
        · push_neg at h1
          rcases h with h | h | h | h
          · exact absurd h h1.1
          · exact absurd h h1.2
          · exact absurd h h2
          · exact absurd h h3

/-- C10 witness: the 2-character username `ab` is rejected with an error
message only. -/
theorem register_preconditions_witness :
    ∃ msg, handleRegister "ab" "password" = RegisterAction.errorMessage msg :=
  (register_preconditions "ab" "password").2
    (Or.inr (Or.inr (Or.inl (by decide))))

end Sabong
